import Mathlib

/-!
Verification development for the signal-generation and position-sizing core
of the pocket-option trading bot (src/strategies.py, src/pocket_option_bot.py,
src/config.py).

Numeric model: Python/pandas float values are embedded as exact rationals
extended with IEEE-754 special values (`PFloat`): positive/negative infinity
and NaN, so that pandas behaviours such as `0/0 = NaN`, `x/0 = inf` for
`x > 0`, rolling windows shorter than the window size yielding NaN, and
NaN-propagation through arithmetic are represented faithfully.  Python's
`round(x, 2)` is embedded as round-half-to-even on rationals (`round2`).
Signals are the closed set of strings returned by the source
(`"call"` = Up, `"put"` = Down) embedded as the inductive `Signal`.
-/

/-- Extended value type modelling a pandas float64 cell: a finite rational,
positive infinity, negative infinity, or NaN. -/
inductive PFloat where
  | fin : ℚ → PFloat
  | pinf : PFloat
  | ninf : PFloat
  | nan : PFloat
deriving DecidableEq

/-- Embeds `pd.isna` on a single cell. -/
def PFloat.isna : PFloat → Bool
  | .nan => true
  | _ => false

/-- IEEE-754 addition on the embedded values. -/
def PFloat.add : PFloat → PFloat → PFloat
  | .nan, _ => .nan
  | _, .nan => .nan
  | .fin a, .fin b => .fin (a + b)
  | .fin _, .pinf => .pinf
  | .pinf, .fin _ => .pinf
  | .fin _, .ninf => .ninf
  | .ninf, .fin _ => .ninf
  | .pinf, .pinf => .pinf
  | .ninf, .ninf => .ninf
  | .pinf, .ninf => .nan
  | .ninf, .pinf => .nan

/-- IEEE-754 subtraction on the embedded values. -/
def PFloat.sub : PFloat → PFloat → PFloat
  | .nan, _ => .nan
  | _, .nan => .nan
  | .fin a, .fin b => .fin (a - b)
  | .fin _, .pinf => .ninf
  | .pinf, .fin _ => .pinf
  | .fin _, .ninf => .pinf
  | .ninf, .fin _ => .ninf
  | .pinf, .pinf => .nan
  | .ninf, .ninf => .nan
  | .pinf, .ninf => .pinf
  | .ninf, .pinf => .ninf

/-- IEEE-754 negation on the embedded values. -/
def PFloat.neg : PFloat → PFloat
  | .nan => .nan
  | .fin a => .fin (-a)
  | .pinf => .ninf
  | .ninf => .pinf

/-- IEEE-754 division on the embedded values (zero is treated as +0, the only
zero arising from the source computations): `a/0 = ±inf` for `a ≠ 0`,
`0/0 = NaN`, `a/±inf = 0`. -/
def PFloat.div : PFloat → PFloat → PFloat
  | .nan, _ => .nan
  | _, .nan => .nan
  | .fin a, .fin b =>
      if b = 0 then (if a = 0 then .nan else if 0 < a then .pinf else .ninf)
      else .fin (a / b)
  | .fin _, .pinf => .fin 0
  | .fin _, .ninf => .fin 0
  | .pinf, .fin b => if 0 ≤ b then .pinf else .ninf
  | .ninf, .fin b => if 0 ≤ b then .ninf else .pinf
  | .pinf, .pinf => .nan
  | .pinf, .ninf => .nan
  | .ninf, .pinf => .nan
  | .ninf, .ninf => .nan

/-- IEEE-754 strict comparison: any comparison involving NaN is false. -/
def PFloat.lt : PFloat → PFloat → Bool
  | .nan, _ => false
  | _, .nan => false
  | .fin a, .fin b => decide (a < b)
  | .fin _, .pinf => true
  | .fin _, .ninf => false
  | .pinf, .fin _ => false
  | .ninf, .fin _ => true
  | .pinf, .pinf => false
  | .ninf, .ninf => false
  | .ninf, .pinf => true
  | .pinf, .ninf => false

/-- IEEE-754 non-strict comparison: any comparison involving NaN is false. -/
def PFloat.le : PFloat → PFloat → Bool
  | .nan, _ => false
  | _, .nan => false
  | .fin a, .fin b => decide (a ≤ b)
  | .fin _, .pinf => true
  | .fin _, .ninf => false
  | .pinf, .fin _ => false
  | .ninf, .fin _ => true
  | .pinf, .pinf => true
  | .ninf, .ninf => true
  | .ninf, .pinf => true
  | .pinf, .ninf => false

/-- Positivity test as the source would evaluate `0 < x` in float terms. -/
def PFloat.isPos (x : PFloat) : Bool := PFloat.lt (PFloat.fin 0) x

/-- Sum of a column segment, with IEEE propagation of specials. -/
def PFloat.sum (xs : List PFloat) : PFloat := xs.foldr PFloat.add (PFloat.fin 0)

/-- Mean of a window, as `sum / count`; an empty window gives `0/0 = NaN`,
matching pandas producing NaN when no values are available. -/
def meanPF (xs : List PFloat) : PFloat :=
  PFloat.div (PFloat.sum xs) (PFloat.fin (xs.length : ℚ))

/-- Embeds `series.rolling(window=w).mean()`: positions with fewer than `w`
prior values give NaN, otherwise the mean of the trailing `w` values
(NaN-containing windows propagate NaN through `meanPF`). -/
def rollingMean (w : ℕ) (xs : List PFloat) : List PFloat :=
  (List.range xs.length).map
    (fun i => if i + 1 < w then PFloat.nan else meanPF ((xs.take (i + 1)).drop (i + 1 - w)))

/-- Embeds `series.diff()`: NaN at the first position, `x[i] - x[i-1]` after. -/
def diffPF (xs : List ℚ) : List PFloat :=
  match xs with
  | [] => []
  | _ :: t => PFloat.nan :: List.zipWith (fun b a => PFloat.fin (b - a)) t xs

/-- Embeds `delta.where(delta > 0, 0)` (the gain series of RSI); the condition
is false on NaN, so NaN cells become 0. -/
def whereGtZero (d : PFloat) : PFloat :=
  if PFloat.lt (PFloat.fin 0) d then d else PFloat.fin 0

/-- Embeds `-delta.where(delta < 0, 0)` (the loss series of RSI). -/
def whereLtZeroNeg (d : PFloat) : PFloat :=
  PFloat.neg (if PFloat.lt d (PFloat.fin 0) then d else PFloat.fin 0)

/-- The trading signal strings returned by the strategies: `"call"` (Up)
and `"put"` (Down). `None` is modelled by `Option`. -/
inductive Signal where
  | call : Signal
  | put : Signal
deriving DecidableEq

/-- A market-data DataFrame as the strategies see it: the caller-supplied
`close` column plus the indicator columns that `analyze` assigns onto the
caller's object (`data['sma_short'] = ...`, `data['rsi'] = ...`). -/
structure DataFrame where
  close : List ℚ
  sma_short : Option (List PFloat) := none
  sma_long : Option (List PFloat) := none
  rsi : Option (List PFloat) := none
deriving DecidableEq

/-- The close column viewed as float cells. -/
def closePF (df : DataFrame) : List PFloat := df.close.map PFloat.fin

/-- Embeds `data.iloc[-1][col]`: the last cell of a column (NaN when the
frame is empty, which the guards make unreachable in the source). -/
def lastRow (xs : List PFloat) : PFloat := xs.getLastD PFloat.nan

/-- The parameter dictionary passed to strategy constructors; absent keys are
`none` and fall back to the documented defaults via `Option.getD`. -/
structure StrategyParams where
  short_period : Option ℕ := none
  long_period : Option ℕ := none
  rsi_period : Option ℕ := none
  rsi_overbought : Option ℚ := none
  rsi_oversold : Option ℚ := none

/-- Modelled from the spec: the spec names a `ConfigurationError` raised for
malformed configuration, but no such error type or validation exists anywhere
in the source; constructors that could raise it are embedded as `Except` so
the claimed failure is statable. -/
inductive ConfigurationError where
  | invalidConfig : ConfigurationError
deriving DecidableEq

/-- TrendFollowingStrategy state: lines 20-23 of src/strategies.py. -/
structure TrendFollowingStrategy where
  short_period : ℕ
  long_period : ℕ
deriving DecidableEq

/-- Embeds `TrendFollowingStrategy.__init__`: reads the parameters with
defaults 5 and 10 and performs no validation (the source body has no check
and no raise). -/
def mkTrendFollowingStrategy (p : StrategyParams) :
    Except ConfigurationError TrendFollowingStrategy :=
  .ok { short_period := p.short_period.getD 5, long_period := p.long_period.getD 10 }

/-- RSIStrategy state: lines 52-56 of src/strategies.py. -/
structure RSIStrategy where
  rsi_period : ℕ
  overbought : ℚ
  oversold : ℚ
deriving DecidableEq

/-- Embeds `RSIStrategy.__init__`: defaults 14, 70, 30; no validation. -/
def mkRSIStrategy (p : StrategyParams) : Except ConfigurationError RSIStrategy :=
  .ok { rsi_period := p.rsi_period.getD 14,
        overbought := p.rsi_overbought.getD 70,
        oversold := p.rsi_oversold.getD 30 }

/-- The DataFrame after `TrendFollowingStrategy.analyze` has assigned the
`sma_short` and `sma_long` columns onto the caller's frame (lines 32-33). -/
def trendWithSMA (st : TrendFollowingStrategy) (df : DataFrame) : DataFrame :=
  { df with
    sma_short := some (rollingMean st.short_period (closePF df)),
    sma_long := some (rollingMean st.long_period (closePF df)) }

/-- Embeds `TrendFollowingStrategy.analyze` (lines 25-47): length guard, SMA
column assignment (a mutation of the caller's frame, returned as the second
component), NaN guard on the last row, then the crossover comparison with the
tie falling to `"put"`. -/
def TrendFollowingStrategy.analyze (st : TrendFollowingStrategy) (df : DataFrame) :
    Option Signal × DataFrame :=
  if df.close.length < st.long_period then (none, df)
  else if (lastRow (rollingMean st.short_period (closePF df))).isna
      || (lastRow (rollingMean st.long_period (closePF df))).isna then
    (none, trendWithSMA st df)
  else if PFloat.lt (lastRow (rollingMean st.long_period (closePF df)))
      (lastRow (rollingMean st.short_period (closePF df))) then
    (some Signal.call, trendWithSMA st df)
  else
    (some Signal.put, trendWithSMA st df)

/-- Embeds `RSIStrategy.calculate_rsi` (lines 58-70): diff, gain/loss split,
rolling means, `rs = avg_gain / avg_loss`, `rsi = 100 - 100/(1+rs)`. -/
def RSIStrategy.calculate_rsi (st : RSIStrategy) (df : DataFrame) : List PFloat :=
  List.zipWith PFloat.div
      (rollingMean st.rsi_period ((diffPF df.close).map whereGtZero))
      (rollingMean st.rsi_period ((diffPF df.close).map whereLtZeroNeg))
    |>.map (fun r => PFloat.sub (PFloat.fin 100)
        (PFloat.div (PFloat.fin 100) (PFloat.add (PFloat.fin 1) r)))

/-- The DataFrame after `RSIStrategy.analyze` has assigned the `rsi` column
onto the caller's frame (line 79). -/
def rsiWithColumn (st : RSIStrategy) (df : DataFrame) : DataFrame :=
  { df with rsi := some (st.calculate_rsi df) }

/-- Embeds `RSIStrategy.analyze` (lines 72-95): length guard, rsi column
assignment, NaN guard, then the threshold comparisons (oversold first). -/
def RSIStrategy.analyze (st : RSIStrategy) (df : DataFrame) :
    Option Signal × DataFrame :=
  if df.close.length < st.rsi_period + 1 then (none, df)
  else if (lastRow (st.calculate_rsi df)).isna then (none, rsiWithColumn st df)
  else if PFloat.le (lastRow (st.calculate_rsi df)) (PFloat.fin st.oversold) then
    (some Signal.call, rsiWithColumn st df)
  else if PFloat.le (PFloat.fin st.overbought) (lastRow (st.calculate_rsi df)) then
    (some Signal.put, rsiWithColumn st df)
  else (none, rsiWithColumn st df)

/-- Round-half-to-even to an integer on exact rationals: the rounding rule of
Python's `round`. -/
def roundHalfEven (x : ℚ) : ℤ :=
  if x - ⌊x⌋ < 1/2 then ⌊x⌋
  else if 1/2 < x - ⌊x⌋ then ⌊x⌋ + 1
  else if ⌊x⌋ % 2 = 0 then ⌊x⌋ else ⌊x⌋ + 1

/-- Embeds Python's `round(x, 2)`. -/
def round2 (x : ℚ) : ℚ := (roundHalfEven (x * 100) : ℚ) / 100

/-- Status of a recorded trade: the closed set of strings `'pending'`,
`'win'`, `'loss'` used in the source. -/
inductive TradeStatus where
  | pending : TradeStatus
  | win : TradeStatus
  | loss : TradeStatus
deriving DecidableEq

/-- A trade record as the stake sizer reads it: the `status` and
`martingale_level` fields of the dict appended by `place_trade` (the other
fields -- timestamp, asset, direction, amount, expiry -- are never read by
`calculate_martingale_amount` and are omitted). -/
structure Trade where
  status : TradeStatus
  martingale_level : ℕ
deriving DecidableEq

/-- The bot state read and written by the stake sizer: lines 48 and 52-57 and
65 of src/pocket_option_bot.py. -/
structure PocketOptionBot where
  martingale_enabled : Bool
  trade_amount : ℚ
  martingale_coefficient : ℚ
  max_martingale_level : ℤ
  martingale_stack : List ℚ
  trade_history : List Trade
deriving DecidableEq

/-- Embeds `PocketOptionBot.__init__` restricted to the risk/stake fields:
copies configuration values with no validation (the source body has no check
and no raise), and initializes `martingale_stack = []`, `trade_history = []`. -/
def mkBot (trade_amount : ℚ) (martingale_enabled : Bool)
    (martingale_coefficient : ℚ) (max_martingale_level : ℤ) :
    Except ConfigurationError PocketOptionBot :=
  .ok { martingale_enabled := martingale_enabled,
        trade_amount := trade_amount,
        martingale_coefficient := martingale_coefficient,
        max_martingale_level := max_martingale_level,
        martingale_stack := [],
        trade_history := [] }

/-- Embeds the status comparison `t['status'] == 'loss'`. -/
def TradeStatus.isLoss : TradeStatus → Bool
  | .loss => true
  | _ => false

/-- Embeds `len([t for t in self.trade_history if t['status'] == 'loss'])`. -/
def countLosses (h : List Trade) : ℕ :=
  (h.filter (fun t => t.status.isLoss)).length

/-- Inner loop of the martingale stack construction: appends
`round(prev * coefficient, 2)` a given number of times. -/
def buildStackAux (c : ℚ) (prev : ℚ) : ℕ → List ℚ
  | 0 => []
  | k + 1 =>
      round2 (prev * c) :: buildStackAux c (round2 (prev * c)) k

/-- Embeds lines 306-311: `martingale_stack = [trade_amount]` followed by
`for i in range(1, max_martingale_level): append(round(stack[i-1] * coeff, 2))`.
The Python `range(1, L)` contributes `max(L-1, 0)` iterations. -/
def buildStack (base c : ℚ) (L : ℤ) : List ℚ :=
  base :: buildStackAux c base (L - 1).toNat

/-- Python list indexing `xs[i]` including negative indices; out-of-range
access (an `IndexError` in Python) is `none`. -/
def pyGet (xs : List ℚ) (i : ℤ) : Option ℚ :=
  if 0 ≤ i then xs.get? i.toNat
  else if 0 ≤ (xs.length : ℤ) + i then xs.get? ((xs.length : ℤ) + i).toNat
  else none

/-- Embeds `calculate_martingale_amount` (lines 301-320): returns the flat
amount when martingale is disabled, materializes the stack on first use, then
indexes it with 0 after a win and `min(current_level + 1, max_level - 1)`
otherwise, where `current_level` is the `martingale_level` recorded on the
last history entry (an empty history would raise `IndexError`, hence `none`).
The second component is the bot with the possibly materialized stack. -/
def calculate_martingale_amount (b : PocketOptionBot) (last_result : TradeStatus) :
    Option ℚ × PocketOptionBot :=
  if b.martingale_enabled = false then (some b.trade_amount, b)
  else
    let b2 : PocketOptionBot :=
      if b.martingale_stack.isEmpty then
        { b with martingale_stack :=
            buildStack b.trade_amount b.martingale_coefficient b.max_martingale_level }
      else b
    if last_result = TradeStatus.win then (pyGet b2.martingale_stack 0, b2)
    else
      match b2.trade_history.getLast? with
      | none => (none, b2)
      | some t =>
          (pyGet b2.martingale_stack
            (min ((t.martingale_level : ℤ) + 1) (b2.max_martingale_level - 1)), b2)

/-- The history-recording effect of `place_trade` (lines 257-268): appends a
pending trade whose `martingale_level` is the count of loss-status trades in
the current history when martingale is enabled, else 0. -/
def placeTrade (b : PocketOptionBot) : PocketOptionBot :=
  { b with trade_history := b.trade_history ++
      [{ status := TradeStatus.pending,
         martingale_level :=
           if b.martingale_enabled then countLosses b.trade_history else 0 }] }

/-- The history-updating effect of `check_trade_result` (lines 286-293):
overwrites the status of the last history entry with the settled result. -/
def checkTradeResult (b : PocketOptionBot) (r : TradeStatus) : PocketOptionBot :=
  match b.trade_history.getLast? with
  | none => b
  | some t => { b with trade_history := b.trade_history.dropLast ++ [{ t with status := r }] }

/-- One iteration of the session loop as it affects the history: place a
trade, then settle it with the given result. -/
def sessionStep (b : PocketOptionBot) (r : TradeStatus) : PocketOptionBot := checkTradeResult (placeTrade b) r

/-- A whole session's history dynamics: settle the listed results in order. -/
def replay (b : PocketOptionBot) (rs : List TradeStatus) : PocketOptionBot := rs.foldl sessionStep b

/-- A freshly constructed bot with martingale enabled, as produced by
`__init__` from a configuration. -/
def initialBot (base c : ℚ) (L : ℤ) : PocketOptionBot :=
  { martingale_enabled := true, trade_amount := base, martingale_coefficient := c,
    max_martingale_level := L, martingale_stack := [], trade_history := [] }

/-- Number of losses among a list of settled results. -/
def lossCount (rs : List TradeStatus) : ℕ :=
  (rs.filter (fun r => r.isLoss)).length

/-- Number of consecutive losses at the end of a list of settled results:
the count of losses since the most recent win, the notion used by the spec. -/
def consecutiveLossCount (rs : List TradeStatus) : ℕ :=
  (rs.reverse.takeWhile (fun r => r.isLoss)).length

/-! Basic lemmas about the embedded pandas operations. -/

theorem PFloat.lt_self (x : PFloat) : PFloat.lt x x = false := by
  cases x <;> simp [PFloat.lt]

theorem lastRow_rangeMap (f : ℕ → PFloat) {n : ℕ} (h : 1 ≤ n) :
    lastRow ((List.range n).map f) = f (n - 1) := by
  cases n with
  | zero => omega
  | succ m => rw [List.range_succ, List.map_append]; simp [lastRow]

theorem rollingMean_length (w : ℕ) (xs : List PFloat) :
    (rollingMean w xs).length = xs.length := by
  simp [rollingMean]

theorem lastRow_rollingMean {w : ℕ} {xs : List PFloat}
    (h1 : 1 ≤ xs.length) (h2 : w ≤ xs.length) :
    lastRow (rollingMean w xs) = meanPF (xs.drop (xs.length - w)) := by
  unfold rollingMean
  rw [lastRow_rangeMap _ h1, if_neg (by omega)]
  have h3 : xs.length - 1 + 1 = xs.length := by omega
  rw [h3, List.take_length]

theorem rollingMean_isna_false {w : ℕ} {xs : List PFloat}
    (h : (lastRow (rollingMean w xs)).isna = false) :
    w ≤ xs.length ∧ 1 ≤ xs.length := by
  rcases Nat.lt_or_ge xs.length 1 with h0 | h1
  · exfalso
    have hx : xs = [] := List.length_eq_zero.mp (by omega)
    rw [hx] at h
    simp [rollingMean, lastRow, List.getLastD, PFloat.isna] at h
  · rcases le_or_lt w xs.length with h2 | h2
    · exact ⟨h2, h1⟩
    · exfalso
      unfold rollingMean at h
      rw [lastRow_rangeMap _ h1, if_pos (by omega)] at h
      simp [PFloat.isna] at h

theorem sumPF_map_fin (ys : List ℚ) :
    PFloat.sum (ys.map PFloat.fin) = PFloat.fin ys.sum := by
  induction ys with
  | nil => rfl
  | cons a t ih =>
      show PFloat.add (PFloat.fin a) (PFloat.sum (t.map PFloat.fin)) = _
      rw [ih]
      simp [PFloat.add]

theorem meanPF_map_fin {ys : List ℚ} (h : ys ≠ []) :
    meanPF (ys.map PFloat.fin) = PFloat.fin (ys.sum / (ys.length : ℚ)) := by
  have hlen : ((ys.length : ℚ)) ≠ 0 :=
    Nat.cast_ne_zero.mpr (Nat.pos_iff_ne_zero.mp (List.length_pos.mpr h))
  unfold meanPF
  rw [List.length_map, sumPF_map_fin]
  simp only [PFloat.div, if_neg hlen]

/-! C1: the spec claims malformed configuration raises `ConfigurationError`
at construction.  The source constructors perform no validation at all. -/

/-- C1 (amended): constructing a strategy or the bot never raises: every
parameter set, including malformed ones (coefficient = 1.0, max_level = 0,
long_period ≤ short_period), is accepted without any validation, and no
`ConfigurationError` is ever produced at construction or at analysis time. -/
theorem C1_construction_never_raises (p : StrategyParams) (ta c : ℚ)
    (en : Bool) (L : ℤ) :
    (∃ s, mkTrendFollowingStrategy p = .ok s) ∧
    (∃ s, mkRSIStrategy p = .ok s) ∧
    (∃ b, mkBot ta en c L = .ok b) :=
  ⟨⟨_, rfl⟩, ⟨_, rfl⟩, ⟨_, rfl⟩⟩

/-- C1 counterexample: construction with `long_period ≤ short_period`
(10 vs 5) and with `coefficient = 1.0`, `max_level = 0` succeeds and returns
the configured object, instead of raising `ConfigurationError`. -/
theorem C1_counterexample :
    mkTrendFollowingStrategy { short_period := some 10, long_period := some 5 } =
      .ok { short_period := 10, long_period := 5 } ∧
    mkBot 1 true 1 0 =
      .ok { martingale_enabled := true, trade_amount := 1,
            martingale_coefficient := 1, max_martingale_level := 0,
            martingale_stack := [], trade_history := [] } :=
  ⟨rfl, rfl⟩

/-! C4: the spec claims `analyze` has no side effect on the caller-supplied
data.  The source assigns indicator columns onto the caller's DataFrame. -/

/-- C4 (amended): `analyze` never modifies the caller's close-price series,
but it does mutate the caller's DataFrame by assigning indicator columns
(`sma_short`/`sma_long` for TrendFollowing, `rsi` for RSI). -/
theorem C4_close_column_preserved (tf : TrendFollowingStrategy)
    (rs : RSIStrategy) (df : DataFrame) :
    ((tf.analyze df).2).close = df.close ∧
    ((rs.analyze df).2).close = df.close := by
  constructor
  · unfold TrendFollowingStrategy.analyze
    split
    · rfl
    · split
      · rfl
      · split <;> rfl
  · unfold RSIStrategy.analyze
    split
    · rfl
    · split
      · rfl
      · split
        · rfl
        · split <;> rfl

theorem trend_analyze_mutates (st : TrendFollowingStrategy) (df : DataFrame)
    (h : st.long_period ≤ df.close.length) :
    (st.analyze df).2 = trendWithSMA st df := by
  unfold TrendFollowingStrategy.analyze
  rw [if_neg (by omega)]
  split
  · rfl
  · split <;> rfl

/-- C4 counterexample: on a well-formed 10-bar series the TrendFollowing
`analyze` returns a DataFrame different from the caller's input (the SMA
columns were assigned onto it), so the engine is not side-effect-free. -/
theorem C4_counterexample :
    ((TrendFollowingStrategy.mk 5 10).analyze
        { close := List.replicate 10 (1 : ℚ) }).2 ≠
      ({ close := List.replicate 10 (1 : ℚ) } : DataFrame) := by
  intro hEq
  rw [trend_analyze_mutates _ _ (by simp)] at hEq
  have h2 := congrArg DataFrame.sma_short hEq
  simp [trendWithSMA] at h2

/-! Lemmas about the last row of the SMA columns, and claims C5, C7, C9. -/

theorem buildStackAux_length (c : ℚ) :
    ∀ (k : ℕ) (p : ℚ), (buildStackAux c p k).length = k := by
  intro k
  induction k with
  | zero => intro p; rfl
  | succ m ih => intro p; simp [buildStackAux, ih]

theorem buildStackAux_getD (c : ℚ) :
    ∀ (k : ℕ) (p : ℚ) (i : ℕ), i < k →
      (p :: buildStackAux c p k).getD (i + 1) 0 =
        round2 ((p :: buildStackAux c p k).getD i 0 * c) := by
  intro k
  induction k with
  | zero => intro p i h; omega
  | succ m ih =>
      intro p i h
      cases i with
      | zero => simp [buildStackAux, List.getD_cons_zero, List.getD_cons_succ]
      | succ j =>
          have hj : j < m := by omega
          have h2 := ih (round2 (p * c)) j hj
          simpa [buildStackAux, List.getD_cons_succ] using h2

/-- C5: the martingale ladder is built by `ladder[0] = base_stake`,
`ladder[i] = round(ladder[i-1] * coefficient, 2)`, has length `max_level`
(for `max_level ≥ 1`), and for `base_stake = 1`, `coefficient = 2.1`,
`max_level = 5` equals `[1, 2.1, 4.41, 9.26, 19.45]`. -/
theorem C5_martingale_ladder :
    (∀ (base c : ℚ) (L : ℤ), 1 ≤ L →
      (buildStack base c L).length = L.toNat ∧
      (buildStack base c L).getD 0 0 = base ∧
      ∀ i : ℕ, i + 1 < L.toNat →
        (buildStack base c L).getD (i + 1) 0 =
          round2 ((buildStack base c L).getD i 0 * c)) ∧
    buildStack 1 (21 / 10) 5 = [1, 21 / 10, 441 / 100, 463 / 50, 389 / 20] := by
  constructor
  · intro base c L hL
    refine ⟨?_, rfl, ?_⟩
    · show (base :: buildStackAux c base (L - 1).toNat).length = L.toNat
      rw [List.length_cons, buildStackAux_length]
      omega
    · intro i hi
      apply buildStackAux_getD
      omega
  · norm_num [buildStack, buildStackAux, round2, roundHalfEven]

/-- C5 witness: the general part of the ladder theorem applied at the
concrete configuration of the spec example. -/
theorem C5_witness :
    (buildStack 1 (21 / 10) 5).length = (5 : ℤ).toNat ∧
    (buildStack 1 (21 / 10) 5).getD 1 0 =
      round2 ((buildStack 1 (21 / 10) 5).getD 0 0 * (21 / 10)) :=
  ⟨(C5_martingale_ladder.1 1 (21 / 10) 5 (by decide)).1,
   (C5_martingale_ladder.1 1 (21 / 10) 5 (by decide)).2.2 0 (by decide)⟩

theorem lastRow_sma {p : ℕ} {df : DataFrame} (h1 : 1 ≤ p)
    (h2 : p ≤ df.close.length) :
    lastRow (rollingMean p (closePF df)) =
      PFloat.fin ((df.close.drop (df.close.length - p)).sum /
        ((df.close.drop (df.close.length - p)).length : ℚ)) := by
  have hlen : (closePF df).length = df.close.length := List.length_map _ _
  have hne : df.close.drop (df.close.length - p) ≠ [] := by
    apply List.ne_nil_of_length_pos
    rw [List.length_drop]
    omega
  rw [lastRow_rollingMean (by omega) (by omega), hlen]
  rw [show (closePF df).drop (df.close.length - p) =
        (df.close.drop (df.close.length - p)).map PFloat.fin from
      (List.map_drop _ _ _).symm]
  exact meanPF_map_fin hne

/-- C7: whenever the trailing short and long moving averages are both defined
(non-NaN) and exactly equal, TrendFollowing returns Down (`"put"`): the tie
falls through the strict `>` comparison into the else branch. -/
theorem C7_tie_breaks_to_put (st : TrendFollowingStrategy) (df : DataFrame)
    (h1 : (lastRow (rollingMean st.long_period (closePF df))).isna = false)
    (h2 : lastRow (rollingMean st.short_period (closePF df)) =
          lastRow (rollingMean st.long_period (closePF df))) :
    (st.analyze df).1 = some Signal.put := by
  obtain ⟨hw, hn⟩ := rollingMean_isna_false h1
  have hlen : (closePF df).length = df.close.length := List.length_map _ _
  unfold TrendFollowingStrategy.analyze
  rw [if_neg (by omega), h2]
  rw [if_neg (by simp [h1])]
  rw [if_neg (by simp [PFloat.lt_self])]

/-- C7 witness: a flat 10-bar series with the default 5/10 configuration has
equal short and long averages, and the signal is Down. -/
theorem C7_witness :
    ((TrendFollowingStrategy.mk 5 10).analyze
        { close := List.replicate 10 (1 : ℚ) }).1 = some Signal.put :=
  C7_tie_breaks_to_put _ _
    (by norm_num [rollingMean, closePF, lastRow, meanPF, PFloat.sum, PFloat.add,
          PFloat.div, PFloat.isna, List.range_succ, List.replicate])
    (by norm_num [rollingMean, closePF, lastRow, meanPF, PFloat.sum, PFloat.add,
          PFloat.div, List.range_succ, List.replicate])

/-- C9: with `1 ≤ short_period ≤ long_period ≤ len(series)` both trailing
windows are fully populated, the NaN guard is unreachable, and TrendFollowing
always returns a signal (`"call"` or `"put"`), never the insufficient-data
`None`. -/
theorem C9_sufficient_data_never_none (st : TrendFollowingStrategy)
    (df : DataFrame) (h1 : 1 ≤ st.short_period)
    (h2 : st.short_period ≤ st.long_period)
    (h3 : st.long_period ≤ df.close.length) :
    (st.analyze df).1 = some Signal.call ∨ (st.analyze df).1 = some Signal.put := by
  have hs := @lastRow_sma st.short_period df (by omega) (by omega)
  have hl := @lastRow_sma st.long_period df (by omega) (by omega)
  unfold TrendFollowingStrategy.analyze
  rw [if_neg (by omega)]
  split
  · rename_i hcond
    rw [hs, hl] at hcond
    simp [PFloat.isna] at hcond
  · split
    · exact Or.inl rfl
    · exact Or.inr rfl

/-- C9 witness: the theorem applied to a concrete 10-bar increasing series
with the default 5/10 configuration. -/
theorem C9_witness :
    ((TrendFollowingStrategy.mk 5 10).analyze
        { close := [(0 : ℚ), 1, 2, 3, 4, 5, 6, 7, 8, 9] }).1 = some Signal.call ∨
    ((TrendFollowingStrategy.mk 5 10).analyze
        { close := [(0 : ℚ), 1, 2, 3, 4, 5, 6, 7, 8, 9] }).1 = some Signal.put :=
  C9_sufficient_data_never_none _ _ (by decide) (by decide) (by decide)

/-! Strict mean comparison lemmas for the moving-average crossover (C6). -/

theorem mul_length_lt_sum {a : ℚ} {B : List ℚ} (hB : B ≠ [])
    (h : ∀ b ∈ B, a < b) : a * (B.length : ℚ) < B.sum := by
  induction B with
  | nil => exact absurd rfl hB
  | cons b t ih =>
      rcases eq_or_ne t [] with rfl | ht
      · simpa using h b (by simp)
      · have hb : a < b := h b (by simp)
        have hrec : a * (t.length : ℚ) < t.sum :=
          ih ht (fun x hx => h x (by simp [hx]))
        push_cast [List.length_cons, List.sum_cons]
        nlinarith

theorem sum_mul_length_lt {A B : List ℚ} (hA : A ≠ []) (hB : B ≠ [])
    (h : ∀ a ∈ A, ∀ b ∈ B, a < b) :
    A.sum * (B.length : ℚ) < B.sum * (A.length : ℚ) := by
  induction A with
  | nil => exact absurd rfl hA
  | cons a t ih =>
      have ha : a * (B.length : ℚ) < B.sum := mul_length_lt_sum hB (h a (by simp))
      rcases eq_or_ne t [] with rfl | ht
      · simpa using ha
      · have hrec : t.sum * (B.length : ℚ) < B.sum * (t.length : ℚ) :=
          ih ht (fun x hx => h x (by simp [hx]))
        push_cast [List.length_cons, List.sum_cons]
        nlinarith

theorem mean_append_lt {A B : List ℚ} (hA : A ≠ []) (hB : B ≠ [])
    (h : ∀ a ∈ A, ∀ b ∈ B, a < b) :
    (A ++ B).sum / (((A ++ B).length : ℕ) : ℚ) < B.sum / ((B.length : ℕ) : ℚ) := by
  have hAl : (0 : ℚ) < (A.length : ℚ) := by
    exact_mod_cast List.length_pos.mpr hA
  have hBl : (0 : ℚ) < (B.length : ℚ) := by
    exact_mod_cast List.length_pos.mpr hB
  have key : A.sum * (B.length : ℚ) < B.sum * (A.length : ℚ) :=
    sum_mul_length_lt hA hB h
  rw [List.sum_append, List.length_append]
  rw [div_lt_div_iff₀ (by push_cast; linarith) hBl]
  push_cast
  nlinarith

theorem mul_length_gt_sum {a : ℚ} {B : List ℚ} (hB : B ≠ [])
    (h : ∀ b ∈ B, b < a) : B.sum < a * (B.length : ℚ) := by
  induction B with
  | nil => exact absurd rfl hB
  | cons b t ih =>
      rcases eq_or_ne t [] with rfl | ht
      · simpa using h b (by simp)
      · have hb : b < a := h b (by simp)
        have hrec : t.sum < a * (t.length : ℚ) :=
          ih ht (fun x hx => h x (by simp [hx]))
        push_cast [List.length_cons, List.sum_cons]
        nlinarith

theorem sum_mul_length_gt {A B : List ℚ} (hA : A ≠ []) (hB : B ≠ [])
    (h : ∀ a ∈ A, ∀ b ∈ B, b < a) :
    B.sum * (A.length : ℚ) < A.sum * (B.length : ℚ) := by
  induction A with
  | nil => exact absurd rfl hA
  | cons a t ih =>
      have ha : B.sum < a * (B.length : ℚ) := mul_length_gt_sum hB (h a (by simp))
      rcases eq_or_ne t [] with rfl | ht
      · simpa using ha
      · have hrec : B.sum * (t.length : ℚ) < t.sum * (B.length : ℚ) :=
          ih ht (fun x hx => h x (by simp [hx]))
        push_cast [List.length_cons, List.sum_cons]
        nlinarith

theorem mean_append_gt {A B : List ℚ} (hA : A ≠ []) (hB : B ≠ [])
    (h : ∀ a ∈ A, ∀ b ∈ B, b < a) :
    B.sum / ((B.length : ℕ) : ℚ) < (A ++ B).sum / (((A ++ B).length : ℕ) : ℚ) := by
  have hAl : (0 : ℚ) < (A.length : ℚ) := by
    exact_mod_cast List.length_pos.mpr hA
  have hBl : (0 : ℚ) < (B.length : ℚ) := by
    exact_mod_cast List.length_pos.mpr hB
  have key : B.sum * (A.length : ℚ) < A.sum * (B.length : ℚ) :=
    sum_mul_length_gt hA hB h
  rw [List.sum_append, List.length_append]
  rw [div_lt_div_iff₀ hBl (by push_cast; linarith)]
  push_cast
  nlinarith

/-- C6: on a strictly increasing close series of length at least
`long_period` (with `1 ≤ short_period < long_period`) TrendFollowing returns
Up (`"call"`); on a strictly decreasing one it returns Down (`"put"`). -/
theorem C6_monotone_crossover (st : TrendFollowingStrategy) (df : DataFrame)
    (h1 : 1 ≤ st.short_period) (h2 : st.short_period < st.long_period)
    (h3 : st.long_period ≤ df.close.length) :
    (List.Pairwise (fun a b => a < b) df.close →
      (st.analyze df).1 = some Signal.call) ∧
    (List.Pairwise (fun a b => b < a) df.close →
      (st.analyze df).1 = some Signal.put) := by
  have hs := @lastRow_sma st.short_period df (by omega) (by omega)
  have hl := @lastRow_sma st.long_period df (by omega) (by omega)
  have hdd : ((df.close.drop (df.close.length - st.long_period)).drop
      (st.long_period - st.short_period)) =
      df.close.drop (df.close.length - st.short_period) := by
    rw [List.drop_drop]
    congr 1
    omega
  have hsplit : df.close.drop (df.close.length - st.long_period) =
      ((df.close.drop (df.close.length - st.long_period)).take
        (st.long_period - st.short_period)) ++
      df.close.drop (df.close.length - st.short_period) := by
    rw [← hdd]
    exact (List.take_append_drop _ _).symm
  have hAne : (df.close.drop (df.close.length - st.long_period)).take
      (st.long_period - st.short_period) ≠ [] := by
    apply List.ne_nil_of_length_pos
    rw [List.length_take, List.length_drop]
    omega
  have hBne : df.close.drop (df.close.length - st.short_period) ≠ [] := by
    apply List.ne_nil_of_length_pos
    rw [List.length_drop]
    omega
  constructor
  · intro hsort
    have hpair : List.Pairwise (fun a b => a < b)
        (df.close.drop (df.close.length - st.long_period)) :=
      List.Pairwise.sublist (List.drop_sublist _ _) hsort
    rw [hsplit] at hpair
    obtain ⟨-, -, hcross⟩ := List.pairwise_append.mp hpair
    have hmean := mean_append_lt hAne hBne hcross
    rw [← hsplit] at hmean
    unfold TrendFollowingStrategy.analyze
    rw [if_neg (by omega), hs, hl]
    rw [if_neg (by simp [PFloat.isna])]
    rw [if_pos (?_ : PFloat.lt _ _ = true)]
    simp only [PFloat.lt, decide_eq_true_eq]
    exact hmean
  · intro hsort
    have hpair : List.Pairwise (fun a b => b < a)
        (df.close.drop (df.close.length - st.long_period)) :=
      List.Pairwise.sublist (List.drop_sublist _ _) hsort
    rw [hsplit] at hpair
    obtain ⟨-, -, hcross⟩ := List.pairwise_append.mp hpair
    have hmean := mean_append_gt hAne hBne hcross
    rw [← hsplit] at hmean
    unfold TrendFollowingStrategy.analyze
    rw [if_neg (by omega), hs, hl]
    rw [if_neg (by simp [PFloat.isna])]
    rw [if_neg (?_ : ¬ PFloat.lt _ _ = true)]
    simp only [PFloat.lt, decide_eq_true_eq]
    exact not_lt.mpr (le_of_lt hmean)

/-- C6 witness: the theorem applied to the concrete strictly increasing and
strictly decreasing 10-bar series with the default 5/10 configuration. -/
theorem C6_witness :
    ((TrendFollowingStrategy.mk 5 10).analyze
        { close := [(0 : ℚ), 1, 2, 3, 4, 5, 6, 7, 8, 9] }).1 = some Signal.call ∧
    ((TrendFollowingStrategy.mk 5 10).analyze
        { close := [(9 : ℚ), 8, 7, 6, 5, 4, 3, 2, 1, 0] }).1 = some Signal.put :=
  ⟨(C6_monotone_crossover _ _ (by decide) (by decide) (by decide)).1 (by decide),
   (C6_monotone_crossover _ _ (by decide) (by decide) (by decide)).2 (by decide)⟩

/-! Last-row lemmas for the elementwise RSI pipeline, and claims C3, C8. -/

theorem getLastD_ne_nil {α : Type _} {l : List α} (h : l ≠ []) (d d' : α) :
    l.getLastD d = l.getLastD d' := by
  obtain ⟨z, hz⟩ := Option.isSome_iff_exists.mp (List.getLast?_isSome.mpr h)
  rw [List.getLastD_eq_getLast?, List.getLastD_eq_getLast?, hz]
  rfl

theorem lastRow_cons {a : PFloat} {t : List PFloat} (h : t ≠ []) :
    lastRow (a :: t) = lastRow t := by
  unfold lastRow
  rw [List.getLastD_cons]
  exact getLastD_ne_nil h a PFloat.nan

theorem lastRow_map (f : PFloat → PFloat) {xs : List PFloat} (h : xs ≠ []) :
    lastRow (xs.map f) = f (lastRow xs) := by
  obtain ⟨z, hz⟩ := Option.isSome_iff_exists.mp (List.getLast?_isSome.mpr h)
  unfold lastRow
  rw [List.getLastD_eq_getLast?, List.getLastD_eq_getLast?, List.getLast?_map, hz]
  rfl

theorem lastRow_zipWith (f : PFloat → PFloat → PFloat) :
    ∀ {xs ys : List PFloat}, xs.length = ys.length → xs ≠ [] →
      lastRow (List.zipWith f xs ys) = f (lastRow xs) (lastRow ys) := by
  intro xs
  induction xs with
  | nil => intro ys h hne; exact absurd rfl hne
  | cons a t ih =>
      intro ys hlen hne
      cases ys with
      | nil => simp at hlen
      | cons b u =>
          cases t with
          | nil =>
              cases u with
              | nil => simp [lastRow]
              | cons x y => simp at hlen
          | cons c t2 =>
              cases u with
              | nil => simp at hlen
              | cons d u2 =>
                  have hlen2 : (c :: t2).length = (d :: u2).length := by
                    simpa using hlen
                  have hne2 : (c :: t2) ≠ [] := by simp
                  have hzne : List.zipWith f (c :: t2) (d :: u2) ≠ [] := by
                    apply List.ne_nil_of_length_pos
                    rw [List.length_zipWith]
                    simp
                  rw [List.zipWith_cons_cons, lastRow_cons hzne,
                      lastRow_cons hne2, lastRow_cons (t := d :: u2) (by simp),
                      ih hlen2 hne2]

theorem diffPF_length (xs : List ℚ) : (diffPF xs).length = xs.length := by
  cases xs with
  | nil => rfl
  | cons a t =>
      show (PFloat.nan :: _).length = _
      rw [List.length_cons, List.length_zipWith, List.length_cons]
      omega

theorem zipWith_replicate_diff (c : ℚ) :
    ∀ m : ℕ, List.zipWith (fun b a => PFloat.fin (b - a)) (List.replicate m c)
      (List.replicate (m + 1) c) = List.replicate m (PFloat.fin 0) := by
  intro m
  induction m with
  | zero => rfl
  | succ k ih =>
      rw [List.replicate_succ c (k + 1), List.replicate_succ c k,
          List.zipWith_cons_cons, ← List.replicate_succ c k, ih,
          List.replicate_succ, sub_self]

theorem diffPF_replicate (n : ℕ) (c : ℚ) (h : 1 ≤ n) :
    diffPF (List.replicate n c) =
      PFloat.nan :: List.replicate (n - 1) (PFloat.fin 0) := by
  cases n with
  | zero => omega
  | succ m =>
      rw [List.replicate_succ]
      show PFloat.nan :: List.zipWith _ (List.replicate m c) (c :: List.replicate m c) = _
      rw [← List.replicate_succ c m, zipWith_replicate_diff c m]
      simp

theorem map_whereGtZero_flat (m : ℕ) :
    (PFloat.nan :: List.replicate m (PFloat.fin 0)).map whereGtZero =
      List.replicate (m + 1) (PFloat.fin 0) := by
  rw [List.map_cons, List.map_replicate]
  have h1 : whereGtZero PFloat.nan = PFloat.fin 0 := rfl
  have h2 : whereGtZero (PFloat.fin 0) = PFloat.fin 0 := by
    simp [whereGtZero, PFloat.lt]
  rw [h1, h2, List.replicate_succ]

theorem map_whereLtZeroNeg_flat (m : ℕ) :
    (PFloat.nan :: List.replicate m (PFloat.fin 0)).map whereLtZeroNeg =
      List.replicate (m + 1) (PFloat.fin 0) := by
  rw [List.map_cons, List.map_replicate]
  have h1 : whereLtZeroNeg PFloat.nan = PFloat.fin 0 := by
    simp [whereLtZeroNeg, PFloat.lt, PFloat.neg]
  have h2 : whereLtZeroNeg (PFloat.fin 0) = PFloat.fin 0 := by
    simp [whereLtZeroNeg, PFloat.lt, PFloat.neg]
  rw [h1, h2, List.replicate_succ]

theorem meanPF_replicate_zero {p : ℕ} (h : 1 ≤ p) :
    meanPF (List.replicate p (PFloat.fin 0)) = PFloat.fin 0 := by
  rw [show List.replicate p (PFloat.fin 0) = (List.replicate p (0 : ℚ)).map PFloat.fin
        from by rw [List.map_replicate]]
  rw [meanPF_map_fin (by apply List.ne_nil_of_length_pos; simp; omega)]
  simp

/-- C3 (amended): on a flat series (all close-to-close deltas zero) of length
at least `period + 1` the trailing average gain and average loss are both 0,
so `RS = 0/0` is NaN, the RSI of the last row is NaN (not 100: the code has
no zero-loss rule), and `analyze` returns `None` via its NaN guard instead
of the Down signal the spec claims. -/
theorem C3_flat_series_rsi_nan (st : RSIStrategy) (df : DataFrame) (n : ℕ)
    (c : ℚ) (hp : 1 ≤ st.rsi_period) (hn : st.rsi_period + 1 ≤ n)
    (hclose : df.close = List.replicate n c) :
    lastRow (rollingMean st.rsi_period
      ((diffPF df.close).map whereGtZero)) = PFloat.fin 0 ∧
    lastRow (rollingMean st.rsi_period
      ((diffPF df.close).map whereLtZeroNeg)) = PFloat.fin 0 ∧
    lastRow (st.calculate_rsi df) = PFloat.nan ∧
    (st.analyze df).1 = none := by
  have h1 : 1 ≤ n := by omega
  have hgain : (diffPF df.close).map whereGtZero =
      List.replicate n (PFloat.fin 0) := by
    rw [hclose, diffPF_replicate n c h1, map_whereGtZero_flat]
    congr 1
    omega
  have hloss : (diffPF df.close).map whereLtZeroNeg =
      List.replicate n (PFloat.fin 0) := by
    rw [hclose, diffPF_replicate n c h1, map_whereLtZeroNeg_flat]
    congr 1
    omega
  have havgG : lastRow (rollingMean st.rsi_period
      ((diffPF df.close).map whereGtZero)) = PFloat.fin 0 := by
    rw [hgain, lastRow_rollingMean (by simp; omega) (by simp; omega)]
    rw [List.length_replicate, List.drop_replicate]
    rw [show n - (n - st.rsi_period) = st.rsi_period from by omega]
    exact meanPF_replicate_zero hp
  have havgL : lastRow (rollingMean st.rsi_period
      ((diffPF df.close).map whereLtZeroNeg)) = PFloat.fin 0 := by
    rw [hloss, lastRow_rollingMean (by simp; omega) (by simp; omega)]
    rw [List.length_replicate, List.drop_replicate]
    rw [show n - (n - st.rsi_period) = st.rsi_period from by omega]
    exact meanPF_replicate_zero hp
  have lG : (rollingMean st.rsi_period
      ((diffPF df.close).map whereGtZero)).length = n := by
    rw [rollingMean_length, List.length_map, diffPF_length, hclose,
        List.length_replicate]
  have lL : (rollingMean st.rsi_period
      ((diffPF df.close).map whereLtZeroNeg)).length = n := by
    rw [rollingMean_length, List.length_map, diffPF_length, hclose,
        List.length_replicate]
  have hGne : rollingMean st.rsi_period
      ((diffPF df.close).map whereGtZero) ≠ [] := by
    apply List.ne_nil_of_length_pos
    rw [lG]
    omega
  have hzne : List.zipWith PFloat.div
      (rollingMean st.rsi_period ((diffPF df.close).map whereGtZero))
      (rollingMean st.rsi_period ((diffPF df.close).map whereLtZeroNeg)) ≠ [] := by
    apply List.ne_nil_of_length_pos
    rw [List.length_zipWith, lG, lL]
    simp
    omega
  have hrsi : lastRow (st.calculate_rsi df) = PFloat.nan := by
    unfold RSIStrategy.calculate_rsi
    rw [lastRow_map _ hzne]
    rw [lastRow_zipWith _ (by rw [lG, lL]) hGne]
    rw [havgG, havgL]
    rfl
  refine ⟨havgG, havgL, hrsi, ?_⟩
  unfold RSIStrategy.analyze
  rw [if_neg (by rw [hclose, List.length_replicate]; omega)]
  rw [if_pos (by rw [hrsi]; rfl)]

/-- C3 witness: the amended theorem applied to the flat 15-bar series with
the default 14/70/30 configuration. -/
theorem C3_witness :
    lastRow (rollingMean 14
      ((diffPF (List.replicate 15 (1 : ℚ))).map whereGtZero)) = PFloat.fin 0 ∧
    lastRow (rollingMean 14
      ((diffPF (List.replicate 15 (1 : ℚ))).map whereLtZeroNeg)) = PFloat.fin 0 ∧
    lastRow ((RSIStrategy.mk 14 70 30).calculate_rsi
      { close := List.replicate 15 (1 : ℚ) }) = PFloat.nan ∧
    ((RSIStrategy.mk 14 70 30).analyze
      { close := List.replicate 15 (1 : ℚ) }).1 = none :=
  C3_flat_series_rsi_nan (RSIStrategy.mk 14 70 30)
    { close := List.replicate 15 (1 : ℚ) } 15 1 (by decide) (by decide) rfl

/-- C3 counterexample: on the flat 15-bar series with the default
configuration the RSI of the last row is NaN rather than 100, and `analyze`
returns `None` rather than the Down signal the claim asserts. -/
theorem C3_counterexample :
    ((RSIStrategy.mk 14 70 30).analyze
      { close := List.replicate 15 (1 : ℚ) }).1 = none ∧
    lastRow ((RSIStrategy.mk 14 70 30).calculate_rsi
      { close := List.replicate 15 (1 : ℚ) }) = PFloat.nan := by
  constructor <;>
    norm_num [RSIStrategy.analyze, RSIStrategy.calculate_rsi, rollingMean, diffPF,
      whereGtZero, whereLtZeroNeg, lastRow, meanPF, PFloat.sum, PFloat.add,
      PFloat.div, PFloat.sub, PFloat.neg, PFloat.lt, PFloat.le, PFloat.isna,
      List.range_succ, List.replicate]

theorem isPos_cases {x : PFloat} (h : PFloat.isPos x = true) :
    x = PFloat.pinf ∨ ∃ q : ℚ, x = PFloat.fin q ∧ 0 < q := by
  cases x with
  | fin q =>
      right
      exact ⟨q, rfl, by simpa [PFloat.isPos, PFloat.lt] using h⟩
  | pinf => left; rfl
  | ninf => simp [PFloat.isPos, PFloat.lt] at h
  | nan => simp [PFloat.isPos, PFloat.lt] at h

theorem sumPF_pos {ws : List PFloat} (hne : ws ≠ [])
    (h : ∀ w ∈ ws, PFloat.isPos w = true) :
    PFloat.sum ws = PFloat.pinf ∨
    ∃ s : ℚ, PFloat.sum ws = PFloat.fin s ∧ 0 < s := by
  induction ws with
  | nil => exact absurd rfl hne
  | cons a t ih =>
      have hsum : PFloat.sum (a :: t) = PFloat.add a (PFloat.sum t) := rfl
      rcases eq_or_ne t [] with rfl | ht
      · rcases isPos_cases (h a (by simp)) with rfl | ⟨q, rfl, hq⟩
        · left; rfl
        · right
          exact ⟨q, by simp [hsum, PFloat.sum, PFloat.add], hq⟩
      · have hrec := ih ht (fun w hw => h w (by simp [hw]))
        rcases isPos_cases (h a (by simp)) with rfl | ⟨q, rfl, hq⟩ <;>
            rcases hrec with hs | ⟨s, hs, hspos⟩
        · left; rw [hsum, hs]; rfl
        · left; rw [hsum, hs]; rfl
        · left; rw [hsum, hs]; rfl
        · right
          exact ⟨q + s, by rw [hsum, hs]; rfl, by linarith⟩

theorem meanPF_pos {ws : List PFloat} (hne : ws ≠ [])
    (h : ∀ w ∈ ws, PFloat.isPos w = true) :
    meanPF ws = PFloat.pinf ∨
    ∃ m : ℚ, meanPF ws = PFloat.fin m ∧ 0 < m := by
  have hlen : (0 : ℚ) < (ws.length : ℚ) := by
    exact_mod_cast List.length_pos.mpr hne
  unfold meanPF
  rcases sumPF_pos hne h with hs | ⟨s, hs, hspos⟩
  · left
    rw [hs]
    simp [PFloat.div, le_of_lt hlen]
  · right
    refine ⟨s / (ws.length : ℚ), ?_, div_pos hspos hlen⟩
    rw [hs]
    simp [PFloat.div, hlen.ne']

theorem sumPF_zero {ws : List PFloat} (h : ∀ w ∈ ws, w = PFloat.fin 0) :
    PFloat.sum ws = PFloat.fin 0 := by
  induction ws with
  | nil => rfl
  | cons a t ih =>
      have ha := h a (by simp)
      subst ha
      have hrec := ih (fun w hw => h w (by simp [hw]))
      show PFloat.add (PFloat.fin 0) (PFloat.sum t) = _
      rw [hrec]
      simp [PFloat.add]

theorem meanPF_zero {ws : List PFloat} (hne : ws ≠ [])
    (h : ∀ w ∈ ws, w = PFloat.fin 0) : meanPF ws = PFloat.fin 0 := by
  have hlen : (0 : ℚ) < (ws.length : ℚ) := by
    exact_mod_cast List.length_pos.mpr hne
  unfold meanPF
  rw [sumPF_zero h]
  simp [PFloat.div, hlen.ne']

/-- C8 (amended): on a series whose trailing `period` deltas are all gains
(each delta positive), `avg_loss = 0`, `RS = avg_gain / 0 = +inf`, the RSI of
the last row is exactly 100, and `analyze` returns Down (`"put"`) whenever
`overbought ≤ 100` and additionally `oversold < 100` (if `oversold ≥ 100`
the oversold branch fires first and returns Up instead). -/
theorem C8_all_gains_rsi_100 (st : RSIStrategy) (df : DataFrame)
    (hp : 1 ≤ st.rsi_period) (hn : st.rsi_period + 1 ≤ df.close.length)
    (hpos : ∀ d ∈ (diffPF df.close).drop (df.close.length - st.rsi_period),
      PFloat.isPos d = true)
    (hos : st.oversold < 100) (hob : st.overbought ≤ 100) :
    lastRow (st.calculate_rsi df) = PFloat.fin 100 ∧
    (st.analyze df).1 = some Signal.put := by
  have hdlen : (diffPF df.close).length = df.close.length := diffPF_length _
  have hWne : (diffPF df.close).drop
      (df.close.length - st.rsi_period) ≠ [] := by
    apply List.ne_nil_of_length_pos
    rw [List.length_drop, hdlen]
    omega
  have hmapne : ((diffPF df.close).drop
      (df.close.length - st.rsi_period)).map whereGtZero ≠ [] := by
    simpa using hWne
  have hmapneL : ((diffPF df.close).drop
      (df.close.length - st.rsi_period)).map whereLtZeroNeg ≠ [] := by
    simpa using hWne
  have hgpos : ∀ g ∈ ((diffPF df.close).drop
      (df.close.length - st.rsi_period)).map whereGtZero,
      PFloat.isPos g = true := by
    intro g hg
    obtain ⟨d, hd, rfl⟩ := List.mem_map.mp hg
    have hdp := hpos d hd
    unfold PFloat.isPos at hdp
    have hwd : whereGtZero d = d := by
      unfold whereGtZero
      rw [if_pos hdp]
    rw [hwd]
    exact hdp
  have hlzero : ∀ w ∈ ((diffPF df.close).drop
      (df.close.length - st.rsi_period)).map whereLtZeroNeg,
      w = PFloat.fin 0 := by
    intro w hw
    obtain ⟨d, hd, rfl⟩ := List.mem_map.mp hw
    rcases isPos_cases (hpos d hd) with rfl | ⟨q, rfl, hq⟩
    · simp [whereLtZeroNeg, PFloat.lt, PFloat.neg]
    · have hlt : PFloat.lt (PFloat.fin q) (PFloat.fin 0) = false := by
        simp [PFloat.lt]
        linarith
      simp [whereLtZeroNeg, hlt, PFloat.neg]
  have hGainLast : lastRow (rollingMean st.rsi_period
      ((diffPF df.close).map whereGtZero)) =
      meanPF (((diffPF df.close).drop
        (df.close.length - st.rsi_period)).map whereGtZero) := by
    rw [lastRow_rollingMean (by rw [List.length_map, hdlen]; omega)
        (by rw [List.length_map, hdlen]; omega)]
    rw [List.length_map, hdlen, List.map_drop]
  have hLossLast : lastRow (rollingMean st.rsi_period
      ((diffPF df.close).map whereLtZeroNeg)) = PFloat.fin 0 := by
    rw [lastRow_rollingMean (by rw [List.length_map, hdlen]; omega)
        (by rw [List.length_map, hdlen]; omega)]
    rw [List.length_map, hdlen, ← List.map_drop]
    exact meanPF_zero hmapneL hlzero
  have lG : (rollingMean st.rsi_period
      ((diffPF df.close).map whereGtZero)).length = df.close.length := by
    rw [rollingMean_length, List.length_map, hdlen]
  have lL : (rollingMean st.rsi_period
      ((diffPF df.close).map whereLtZeroNeg)).length = df.close.length := by
    rw [rollingMean_length, List.length_map, hdlen]
  have hGne : rollingMean st.rsi_period
      ((diffPF df.close).map whereGtZero) ≠ [] := by
    apply List.ne_nil_of_length_pos
    rw [lG]
    omega
  have hzne : List.zipWith PFloat.div
      (rollingMean st.rsi_period ((diffPF df.close).map whereGtZero))
      (rollingMean st.rsi_period ((diffPF df.close).map whereLtZeroNeg)) ≠ [] := by
    apply List.ne_nil_of_length_pos
    rw [List.length_zipWith, lG, lL]
    simp
    omega
  have hrspinf : PFloat.div
      (lastRow (rollingMean st.rsi_period
        ((diffPF df.close).map whereGtZero))) (PFloat.fin 0) = PFloat.pinf := by
    rw [hGainLast]
    rcases meanPF_pos hmapne hgpos with hG | ⟨m, hG, hmpos⟩
    · rw [hG]
      simp [PFloat.div]
    · rw [hG]
      simp [PFloat.div, hmpos.ne', hmpos]
  have hrsi : lastRow (st.calculate_rsi df) = PFloat.fin 100 := by
    unfold RSIStrategy.calculate_rsi
    rw [lastRow_map _ hzne]
    rw [lastRow_zipWith _ (by rw [lG, lL]) hGne]
    rw [hLossLast, hrspinf]
    simp [PFloat.add, PFloat.div, PFloat.sub]
  refine ⟨hrsi, ?_⟩
  unfold RSIStrategy.analyze
  rw [if_neg (by omega)]
  rw [if_neg (by rw [hrsi]; simp [PFloat.isna])]
  rw [if_neg (by rw [hrsi]; simp [PFloat.le]; linarith)]
  rw [if_pos (by rw [hrsi]; simp [PFloat.le]; exact hob)]

/-- C8 witness: the amended theorem applied to the all-gains series `[1, 2]`
with period 1 and the default 70/30 thresholds. -/
theorem C8_witness :
    lastRow ((RSIStrategy.mk 1 70 30).calculate_rsi
      { close := [(1 : ℚ), 2] }) = PFloat.fin 100 ∧
    ((RSIStrategy.mk 1 70 30).analyze { close := [(1 : ℚ), 2] }).1 =
      some Signal.put :=
  C8_all_gains_rsi_100 (RSIStrategy.mk 1 70 30) { close := [(1 : ℚ), 2] }
    (by decide) (by decide)
    (by norm_num [diffPF, List.zipWith_cons_cons, PFloat.isPos, PFloat.lt])
    (by norm_num) (by norm_num)

/-- C8 counterexample: with `oversold = overbought = 100` (so `overbought ≤
100` holds as the claim requires) the all-gains series `[1, 2]` makes the
oversold branch fire first: the signal is Up (`"call"`), not the Down the
claim asserts. -/
theorem C8_counterexample :
    (∀ d ∈ (diffPF [(1 : ℚ), 2]).drop ([(1 : ℚ), 2].length - 1),
      PFloat.isPos d = true) ∧
    ((RSIStrategy.mk 1 100 100).analyze { close := [(1 : ℚ), 2] }).1 =
      some Signal.call ∧
    ((RSIStrategy.mk 1 100 100).analyze { close := [(1 : ℚ), 2] }).1 ≠
      some Signal.put := by
  have h2 : ((RSIStrategy.mk 1 100 100).analyze { close := [(1 : ℚ), 2] }).1 =
      some Signal.call := by
    norm_num [RSIStrategy.analyze, RSIStrategy.calculate_rsi, rollingMean, diffPF,
      whereGtZero, whereLtZeroNeg, lastRow, meanPF, PFloat.sum, PFloat.add,
      PFloat.div, PFloat.sub, PFloat.neg, PFloat.lt, PFloat.le, PFloat.isna,
      List.range_succ]
  refine ⟨?_, h2, ?_⟩
  · norm_num [diffPF, List.zipWith_cons_cons, PFloat.isPos, PFloat.lt]
  · rw [h2]
    intro hcontra
    exact Signal.noConfusion (Option.some.inj hcontra)

/-! Session-history lemmas for the martingale stake sizer, and claims C2, C10. -/

theorem sessionStep_history (b : PocketOptionBot) (r : TradeStatus) :
    (sessionStep b r).trade_history = b.trade_history ++
      [{ status := r,
         martingale_level :=
           if b.martingale_enabled then countLosses b.trade_history else 0 }] := by
  unfold sessionStep checkTradeResult placeTrade
  simp [List.getLast?_concat, List.dropLast_concat]

theorem sessionStep_fields (b : PocketOptionBot) (r : TradeStatus) :
    (sessionStep b r).martingale_enabled = b.martingale_enabled ∧
    (sessionStep b r).trade_amount = b.trade_amount ∧
    (sessionStep b r).martingale_coefficient = b.martingale_coefficient ∧
    (sessionStep b r).max_martingale_level = b.max_martingale_level ∧
    (sessionStep b r).martingale_stack = b.martingale_stack := by
  unfold sessionStep checkTradeResult placeTrade
  split <;> exact ⟨rfl, rfl, rfl, rfl, rfl⟩

theorem replay_concat (b : PocketOptionBot) (ys : List TradeStatus)
    (r : TradeStatus) :
    replay b (ys ++ [r]) = sessionStep (replay b ys) r := by
  unfold replay
  rw [List.foldl_append]
  rfl

theorem replay_fields (b : PocketOptionBot) (rs : List TradeStatus) :
    (replay b rs).martingale_enabled = b.martingale_enabled ∧
    (replay b rs).trade_amount = b.trade_amount ∧
    (replay b rs).martingale_coefficient = b.martingale_coefficient ∧
    (replay b rs).max_martingale_level = b.max_martingale_level ∧
    (replay b rs).martingale_stack = b.martingale_stack := by
  induction rs using List.reverseRecOn with
  | nil => exact ⟨rfl, rfl, rfl, rfl, rfl⟩
  | append_singleton ys r ih =>
      rw [replay_concat]
      have h := sessionStep_fields (replay b ys) r
      exact ⟨h.1.trans ih.1, h.2.1.trans ih.2.1, h.2.2.1.trans ih.2.2.1,
             h.2.2.2.1.trans ih.2.2.2.1, h.2.2.2.2.trans ih.2.2.2.2⟩

theorem countLosses_concat (h : List Trade) (t : Trade) :
    countLosses (h ++ [t]) =
      countLosses h + (if t.status.isLoss then 1 else 0) := by
  unfold countLosses
  rw [List.filter_append, List.length_append]
  congr 1
  rw [List.filter_cons]
  cases ht : t.status.isLoss <;> simp [ht]

theorem lossCount_concat (rs : List TradeStatus) (r : TradeStatus) :
    lossCount (rs ++ [r]) = lossCount rs + (if r.isLoss then 1 else 0) := by
  unfold lossCount
  rw [List.filter_append, List.length_append]
  congr 1
  rw [List.filter_cons]
  cases hr : r.isLoss <;> simp [hr]

theorem replay_countLosses (b : PocketOptionBot) (rs : List TradeStatus) :
    countLosses (replay b rs).trade_history =
      countLosses b.trade_history + lossCount rs := by
  induction rs using List.reverseRecOn with
  | nil => simp [replay, lossCount, countLosses, List.filter]
  | append_singleton ys r ih =>
      rw [replay_concat, sessionStep_history, countLosses_concat, ih,
          lossCount_concat]
      cases hr : r.isLoss
      · simp [hr]
      · simp [hr]
        omega

theorem buildStack_length (base c : ℚ) (L : ℤ) :
    (buildStack base c L).length = 1 + (L - 1).toNat := by
  unfold buildStack
  rw [List.length_cons, buildStackAux_length]
  omega

theorem pyGet_nonneg_lt {xs : List ℚ} {i : ℤ} (h0 : 0 ≤ i)
    (h1 : i.toNat < xs.length) : pyGet xs i = some (xs.getD i.toNat 0) := by
  unfold pyGet
  rw [if_pos h0, List.getD_eq_getD_get?, List.get?_eq_get h1]
  rfl

theorem calc_amount_after_loss (b : PocketOptionBot) (t : Trade)
    (hen : b.martingale_enabled = true) (hstack : b.martingale_stack = [])
    (hlast : b.trade_history.getLast? = some t) :
    (calculate_martingale_amount b TradeStatus.loss).1 =
      pyGet (buildStack b.trade_amount b.martingale_coefficient
          b.max_martingale_level)
        (min ((t.martingale_level : ℤ) + 1) (b.max_martingale_level - 1)) := by
  simp [calculate_martingale_amount, hen, hstack, hlast]

/-- C2 (amended): in a session replayed from an empty history with martingale
enabled and `max_level ≥ 1`, after a last-result Loss the next stake is
`ladder[min(total_loss_count, max_level - 1)]`, where `total_loss_count`
counts ALL losses since session start (the recorded `martingale_level` is the
cumulative loss count, not the count of consecutive losses since the last
win); the ladder is still capped at index `max_level - 1`. -/
theorem C2_stake_uses_cumulative_losses (base c : ℚ) (L : ℤ)
    (rs : List TradeStatus) (hL : 1 ≤ L) (hne : rs ≠ [])
    (hlast : rs.getLast? = some TradeStatus.loss) :
    (calculate_martingale_amount (replay (initialBot base c L) rs)
      TradeStatus.loss).1 =
      some ((buildStack base c L).getD
        (min (lossCount rs) (L.toNat - 1)) 0) := by
  rcases List.eq_nil_or_concat rs with rfl | ⟨ys, r, hrs⟩
  · exact absurd rfl hne
  · rw [List.concat_eq_append] at hrs
    subst hrs
    have hr : r = TradeStatus.loss := by
      rw [List.getLast?_concat] at hlast
      exact Option.some.inj hlast
    subst hr
    have hen : (replay (initialBot base c L)
        (ys ++ [TradeStatus.loss])).martingale_enabled = true :=
      (replay_fields _ _).1
    have hstack : (replay (initialBot base c L)
        (ys ++ [TradeStatus.loss])).martingale_stack = [] :=
      (replay_fields _ _).2.2.2.2
    have hamount : (replay (initialBot base c L)
        (ys ++ [TradeStatus.loss])).trade_amount = base :=
      (replay_fields _ _).2.1
    have hcoeff : (replay (initialBot base c L)
        (ys ++ [TradeStatus.loss])).martingale_coefficient = c :=
      (replay_fields _ _).2.2.1
    have hlevel : (replay (initialBot base c L)
        (ys ++ [TradeStatus.loss])).max_martingale_level = L :=
      (replay_fields _ _).2.2.2.1
    have henys : (replay (initialBot base c L) ys).martingale_enabled = true :=
      (replay_fields _ _).1
    have hcl : countLosses (replay (initialBot base c L) ys).trade_history =
        lossCount ys := by
      rw [replay_countLosses]
      simp [initialBot, countLosses, List.filter]
    have hlastT : (replay (initialBot base c L)
        (ys ++ [TradeStatus.loss])).trade_history.getLast? =
        some { status := TradeStatus.loss, martingale_level := lossCount ys } := by
      rw [replay_concat, sessionStep_history, List.getLast?_concat,
          if_pos henys, hcl]
    rw [calc_amount_after_loss _ _ hen hstack hlastT, hamount, hcoeff, hlevel]
    rw [pyGet_nonneg_lt (by omega) (by rw [buildStack_length]; omega)]
    have hidx : (min (((lossCount ys : ℕ) : ℤ) + 1) (L - 1)).toNat =
        min (lossCount (ys ++ [TradeStatus.loss])) (L.toNat - 1) := by
      rw [lossCount_concat]
      simp [TradeStatus.isLoss]
      omega
    rw [hidx]

/-- C2 witness: the amended theorem applied to the session Loss, Win, Loss
with the default enabled configuration (base 1, coefficient 2.1, 5 levels). -/
theorem C2_witness :
    (calculate_martingale_amount (replay (initialBot 1 (21 / 10) 5)
      [TradeStatus.loss, TradeStatus.win, TradeStatus.loss]) TradeStatus.loss).1 =
      some ((buildStack 1 (21 / 10) 5).getD
        (min (lossCount [TradeStatus.loss, TradeStatus.win, TradeStatus.loss])
          ((5 : ℤ).toNat - 1)) 0) :=
  C2_stake_uses_cumulative_losses 1 (21 / 10) 5
    [TradeStatus.loss, TradeStatus.win, TradeStatus.loss]
    (by decide) (by decide) (by decide)

/-- C2 counterexample: after the session Loss, Win, Loss the code requests
stake 4.41 = ladder[2] (cumulative loss count 2), while the claim's
`ladder[min(consecutive_loss_count, max_level-1)] = ladder[min(1, 4)]` is
2.1, so the claimed formula does not match the code. -/
theorem C2_counterexample :
    (calculate_martingale_amount (replay (initialBot 1 (21 / 10) 5)
      [TradeStatus.loss, TradeStatus.win, TradeStatus.loss]) TradeStatus.loss).1 =
      some (441 / 100) ∧
    (buildStack 1 (21 / 10) 5).getD
      (min (consecutiveLossCount
        [TradeStatus.loss, TradeStatus.win, TradeStatus.loss])
        ((5 : ℤ).toNat - 1)) 0 = 21 / 10 ∧
    ((441 : ℚ) / 100) ≠ 21 / 10 := by
  refine ⟨?_, ?_, by norm_num⟩
  · norm_num [calculate_martingale_amount, replay, initialBot, sessionStep,
      placeTrade, checkTradeResult, countLosses, TradeStatus.isLoss, buildStack,
      buildStackAux, round2, roundHalfEven, pyGet, List.foldl, List.filter,
      min_def, List.get?]
    rw [if_neg (fun h => TradeStatus.noConfusion h)]
  · norm_num [buildStack, buildStackAux, round2, roundHalfEven,
      consecutiveLossCount, TradeStatus.isLoss, List.takeWhile,
      List.reverse_cons, List.reverse_nil, min_def, List.getD_cons_succ,
      List.getD_cons_zero, show (5 : ℤ).toNat = 5 from rfl]

theorem floor_le_roundHalfEven (x : ℚ) : ⌊x⌋ ≤ roundHalfEven x := by
  unfold roundHalfEven
  split
  · omega
  · split
    · omega
    · split <;> omega

theorem int_le_roundHalfEven {z : ℤ} {x : ℚ} (h : (z : ℚ) ≤ x) :
    z ≤ roundHalfEven x :=
  le_trans (Int.le_floor.mpr h) (floor_le_roundHalfEven x)

theorem round2_ge {k : ℕ} {x : ℚ} (h : (k : ℚ) / 100 ≤ x) :
    (k : ℚ) / 100 ≤ round2 x := by
  unfold round2
  have h1 : ((k : ℤ) : ℚ) ≤ x * 100 := by push_cast; linarith
  have h2 : (k : ℤ) ≤ roundHalfEven (x * 100) := int_le_roundHalfEven h1
  have h3 : ((k : ℤ) : ℚ) ≤ (roundHalfEven (x * 100) : ℚ) := by exact_mod_cast h2
  push_cast at h3
  linarith

theorem buildStackAux_chain (c : ℚ) (hc : 1 ≤ c) :
    ∀ (m : ℕ) (k : ℕ),
      List.Chain' (fun a b => a ≤ b)
        (((k : ℚ) / 100) :: buildStackAux c ((k : ℚ) / 100) m) := by
  intro m
  induction m with
  | zero => intro k; exact List.chain'_singleton _
  | succ j ih =>
      intro k
      have hk0 : (0 : ℚ) ≤ (k : ℚ) / 100 := by positivity
      have hkc : (k : ℚ) / 100 ≤ (k : ℚ) / 100 * c := by nlinarith
      have hge : (k : ℚ) / 100 ≤ round2 ((k : ℚ) / 100 * c) := round2_ge hkc
      have hz : (k : ℤ) ≤ roundHalfEven ((k : ℚ) / 100 * c * 100) :=
        int_le_roundHalfEven (by push_cast; nlinarith)
      have hform : round2 ((k : ℚ) / 100 * c) =
          (((roundHalfEven ((k : ℚ) / 100 * c * 100)).toNat : ℕ) : ℚ) / 100 := by
        unfold round2
        congr 1
        rw [show (((roundHalfEven ((k : ℚ) / 100 * c * 100)).toNat : ℕ) : ℚ) =
              ((roundHalfEven ((k : ℚ) / 100 * c * 100) : ℤ) : ℚ) from by
            exact_mod_cast congrArg Int.cast
              (Int.toNat_of_nonneg (by omega : (0 : ℤ) ≤
                roundHalfEven ((k : ℚ) / 100 * c * 100)))]
      show List.Chain' (fun a b => a ≤ b)
        (((k : ℚ) / 100) :: round2 ((k : ℚ) / 100 * c) ::
          buildStackAux c (round2 ((k : ℚ) / 100 * c)) j)
      rw [hform]
      exact List.chain'_cons.mpr ⟨by rw [← hform]; exact hge, ih _⟩

theorem buildStack_chain {c : ℚ} (hc : 1 ≤ c) (k : ℕ) (L : ℤ) :
    List.Chain' (fun a b => a ≤ b) (buildStack ((k : ℚ) / 100) c L) :=
  buildStackAux_chain c hc _ k

theorem chain_head_le_getLastD :
    ∀ {t : List ℚ} {a d : ℚ},
      List.Chain' (fun x y => x ≤ y) (a :: t) → a ≤ (a :: t).getLastD d := by
  intro t
  induction t with
  | nil => intro a d h; simp [List.getLastD]
  | cons b t2 ih =>
      intro a d h
      obtain ⟨hab, h2⟩ := List.chain'_cons.mp h
      rw [List.getLastD_cons, getLastD_ne_nil (by simp) a d]
      exact le_trans hab (ih h2)

theorem chain_mem_le_getLastD :
    ∀ {xs : List ℚ} {x : ℚ}, x ∈ xs →
      List.Chain' (fun a b => a ≤ b) xs → x ≤ xs.getLastD 0 := by
  intro xs
  induction xs with
  | nil => intro x hx; exact absurd hx (List.not_mem_nil x)
  | cons a t ih =>
      intro x hx hchain
      rcases List.mem_cons.mp hx with rfl | hxt
      · exact chain_head_le_getLastD hchain
      · have ht : t ≠ [] := List.ne_nil_of_mem hxt
        rw [List.getLastD_cons, getLastD_ne_nil ht a 0]
        exact ih hxt hchain.tail

theorem getD_length_sub_one :
    ∀ {xs : List ℚ}, xs ≠ [] → xs.getD (xs.length - 1) 0 = xs.getLastD 0 := by
  intro xs
  induction xs with
  | nil => intro h; exact absurd rfl h
  | cons a t ih =>
      intro h
      rcases t with _ | ⟨b, t2⟩
      · rfl
      · have hlen : (a :: b :: t2).length - 1 = ((b :: t2).length - 1) + 1 := by
          simp
        have hR : (a :: b :: t2).getLastD 0 = (b :: t2).getLastD 0 := by
          rw [List.getLastD_cons]
          exact getLastD_ne_nil (by simp) a 0
        rw [hlen, List.getD_cons_succ, ih (by simp), hR]

theorem getD_mem {xs : List ℚ} {n : ℕ} (h : n < xs.length) :
    xs.getD n 0 ∈ xs := by
  rw [List.getD_eq_getD_get?, List.get?_eq_get h]
  simp

/-- C10 (amended): with martingale enabled, `max_level ≥ 1`, a nonempty
history, a coefficient of at least 1 and a nonnegative base stake that is a
whole number of cents, the index `min(current_level + 1, max_level - 1)` used
after a non-win (and the index 0 used after a win) is within the materialized
ladder's bounds, so `calculate_martingale_amount` returns an element of the
ladder that never exceeds `ladder[max_level - 1]`. -/
theorem C10_stake_within_capped_ladder (b : PocketOptionBot) (r : TradeStatus)
    (hen : b.martingale_enabled = true)
    (hL : 1 ≤ b.max_martingale_level)
    (hstack : b.martingale_stack = [])
    (hh : b.trade_history ≠ [])
    (hc : 1 ≤ b.martingale_coefficient)
    (hbase : ∃ k : ℕ, b.trade_amount = (k : ℚ) / 100) :
    ∃ x, (calculate_martingale_amount b r).1 = some x ∧
      x ∈ buildStack b.trade_amount b.martingale_coefficient
          b.max_martingale_level ∧
      x ≤ (buildStack b.trade_amount b.martingale_coefficient
          b.max_martingale_level).getD (b.max_martingale_level.toNat - 1) 0 := by
  obtain ⟨k, hk⟩ := hbase
  have hlen : (buildStack b.trade_amount b.martingale_coefficient
      b.max_martingale_level).length = 1 + (b.max_martingale_level - 1).toNat :=
    buildStack_length _ _ _
  have hchain : List.Chain' (fun a c => a ≤ c)
      (buildStack b.trade_amount b.martingale_coefficient
        b.max_martingale_level) := by
    rw [hk]
    exact buildStack_chain hc k _
  have hne : buildStack b.trade_amount b.martingale_coefficient
      b.max_martingale_level ≠ [] := by
    apply List.ne_nil_of_length_pos
    rw [hlen]
    omega
  have hlast_eq : (buildStack b.trade_amount b.martingale_coefficient
        b.max_martingale_level).getD (b.max_martingale_level.toNat - 1) 0 =
      (buildStack b.trade_amount b.martingale_coefficient
        b.max_martingale_level).getLastD 0 := by
    rw [show b.max_martingale_level.toNat - 1 =
          (buildStack b.trade_amount b.martingale_coefficient
            b.max_martingale_level).length - 1 from by rw [hlen]; omega]
    exact getD_length_sub_one hne
  by_cases hr : r = TradeStatus.win
  · subst hr
    have hcalc : (calculate_martingale_amount b TradeStatus.win).1 =
        pyGet (buildStack b.trade_amount b.martingale_coefficient
          b.max_martingale_level) 0 := by
      simp [calculate_martingale_amount, hen, hstack]
    have hbound : (0 : ℤ).toNat < (buildStack b.trade_amount
        b.martingale_coefficient b.max_martingale_level).length := by
      rw [hlen]
      omega
    refine ⟨(buildStack b.trade_amount b.martingale_coefficient
        b.max_martingale_level).getD 0 0, ?_, getD_mem (by rw [hlen]; omega), ?_⟩
    · rw [hcalc, pyGet_nonneg_lt (by omega) hbound]
      rfl
    · rw [hlast_eq]
      exact chain_mem_le_getLastD (getD_mem (by rw [hlen]; omega)) hchain
  · obtain ⟨t, ht⟩ : ∃ t, b.trade_history.getLast? = some t := by
      cases hgl : b.trade_history.getLast? with
      | none => exact absurd (List.getLast?_eq_none_iff.mp hgl) hh
      | some t => exact ⟨t, rfl⟩
    have hcalc : (calculate_martingale_amount b r).1 =
        pyGet (buildStack b.trade_amount b.martingale_coefficient
            b.max_martingale_level)
          (min ((t.martingale_level : ℤ) + 1)
            (b.max_martingale_level - 1)) := by
      simp [calculate_martingale_amount, hen, hstack, hr, ht]
    have hbound : (min ((t.martingale_level : ℤ) + 1)
        (b.max_martingale_level - 1)).toNat < (buildStack b.trade_amount
          b.martingale_coefficient b.max_martingale_level).length := by
      rw [hlen]
      omega
    refine ⟨(buildStack b.trade_amount b.martingale_coefficient
        b.max_martingale_level).getD
          (min ((t.martingale_level : ℤ) + 1)
            (b.max_martingale_level - 1)).toNat 0,
      ?_, getD_mem hbound, ?_⟩
    · rw [hcalc, pyGet_nonneg_lt (by omega) hbound]
    · rw [hlast_eq]
      exact chain_mem_le_getLastD (getD_mem hbound) hchain

/-- C10 witness: the amended theorem applied to a fresh enabled bot (base 1,
coefficient 2.1, 5 levels) whose history holds one settled loss. -/
theorem C10_witness :
    ∃ x,
      (calculate_martingale_amount
        { martingale_enabled := true, trade_amount := 1,
          martingale_coefficient := 21 / 10, max_martingale_level := 5,
          martingale_stack := [],
          trade_history := [{ status := TradeStatus.loss, martingale_level := 0 }] }
        TradeStatus.loss).1 = some x ∧
      x ∈ buildStack 1 (21 / 10) 5 ∧
      x ≤ (buildStack 1 (21 / 10) 5).getD ((5 : ℤ).toNat - 1) 0 :=
  C10_stake_within_capped_ladder _ TradeStatus.loss rfl (by decide) rfl
    (by decide) (by norm_num) ⟨100, by norm_num⟩

/-- C10 counterexample: with coefficient 0.5 the materialized ladder
decreases (`[100, 50, 25]`), and after one recorded loss the returned stake
50 strictly exceeds `ladder[max_level - 1] = 25`, so the claim's bound fails;
an empty history would even raise `IndexError` in the non-win branch. -/
theorem C10_counterexample :
    (calculate_martingale_amount
      { martingale_enabled := true, trade_amount := 100,
        martingale_coefficient := 1 / 2, max_martingale_level := 3,
        martingale_stack := [],
        trade_history := [{ status := TradeStatus.loss, martingale_level := 0 }] }
      TradeStatus.loss).1 = some 50 ∧
    ¬ ((50 : ℚ) ≤ (buildStack 100 (1 / 2) 3).getD ((3 : ℤ).toNat - 1) 0) := by
  constructor
  · norm_num [calculate_martingale_amount, buildStack, buildStackAux, round2,
      roundHalfEven, pyGet, min_def, List.get?]
    rw [if_neg (fun h => TradeStatus.noConfusion h)]
  · norm_num [buildStack, buildStackAux, round2, roundHalfEven,
      List.getD_cons_succ, List.getD_cons_zero, show (3 : ℤ).toNat = 3 from rfl]
